import Mathlib

/-!
# whichPort: the socket list and its tray menu

A shallow embedding of `main.go` (the poll loop and `getCurrentProcesses`) and of the
part of the vendored `systray` package that it drives (`MenuItem`, `AddMenuItem`,
`Update`, `Hide`, `Show`, the stores `MenuItems` and `menuItems`, the counter `currentID`).

Conventions of the embedding.

* Text is a `String`.  Every separator and marker of the program (`"\n"`, `" "`, `":"`,
  `"IPv4"`, the decimal digits and signs) is ASCII, so splitting and searching by
  character is the byte-wise processing of the Go code on UTF-8 text.
* The output of the `lsof -i | grep LISTEN` pipeline (`b.String()`, main.go line 65) is
  the parameter `s` of `getCurrentProcesses`: the process boundary is not modelled.
* A Go map is an association list with unique keys.  Go leaves the iteration order of a
  map unspecified; the list order stands for one such order, and the theorems about the
  claims are stated with counts, filters and permutations that do not depend on it.
* `int` is 64 bits wide (`strconv.IntSize = 64`); `int32` values are integers reduced to
  the signed 32 bit range.
* The native calls of the package (`addOrUpdateMenuItem`, `hideMenuItem`, `showMenuItem`,
  `SetTitle`) are recorded, in order, as a list of `Native` events.
* An out-of-range index panics in Go; the embedding returns `none` there.
-/

namespace WhichPort

/-! ## `strings` and `strconv` -/

/-- The pieces of a character list between the occurrences of `sep`. -/
def splitChars (sep : Char) : List Char → List (List Char)
  | [] => [[]]
  | c :: cs =>
    if c = sep then [] :: splitChars sep cs
    else
      match splitChars sep cs with
      | [] => [[c]]
      | hd :: tl => (c :: hd) :: tl

/-- `strings.Split(s, sep)` for a separator of one character, the only form the program
calls (`"\n"`, `" "` and `":"`). -/
def Split (s : String) (sep : Char) : List String :=
  (splitChars sep s.data).map String.mk

/-- Whether `sub` starts the list `l`. -/
def startsWith : List Char → List Char → Bool
  | [], _ => true
  | _ :: _, [] => false
  | a :: as, b :: bs => a == b && startsWith as bs

/-- Whether `sub` occurs in `l` as a contiguous block. -/
def containsChars (sub : List Char) : List Char → Bool
  | [] => startsWith sub []
  | c :: cs => startsWith sub (c :: cs) || containsChars sub cs

/-- `strings.Contains(s, substr)`. -/
def Contains (s substr : String) : Bool :=
  containsChars substr.data s.data

/-- `strings.ContainsAny(s, chars)`: some character of `chars` occurs in `s`. -/
def ContainsAny (s chars : String) : Bool :=
  s.data.any (fun c => chars.data.contains c)

/-- The value of a run of decimal digits, `none` when a character is not a digit. -/
def digitsValue : List Char → Nat → Option Nat
  | [], n => some n
  | c :: cs, n =>
    if 48 ≤ c.toNat ∧ c.toNat ≤ 57 then digitsValue cs (10 * n + (c.toNat - 48)) else none

/-- The width of Go's `int` (`strconv.IntSize`). -/
def intSize : Nat := 64

/-- `strconv.Atoi(s)`: an optional sign and at least one decimal digit, with a value in
the range of `int`; `none` is a non-nil `err` (syntax or range). -/
def Atoi (s : String) : Option Int :=
  match s.data with
  | [] => none
  | c :: cs =>
    let neg := c = '-'
    let ds := if c = '-' ∨ c = '+' then cs else c :: cs
    match ds with
    | [] => none
    | _ :: _ =>
      match digitsValue ds 0 with
      | none => none
      | some n =>
        if neg then
          if n ≤ 2 ^ (intSize - 1) then some (-(n : Int)) else none
        else
          if n < 2 ^ (intSize - 1) then some (n : Int) else none

/-- The conversion `int32(n)`: reduction to the signed 32 bit range. -/
def int32 (n : Int) : Int :=
  (n + 2 ^ 31) % 2 ^ 32 - 2 ^ 31

/-! ## The `systray` package -/

/-- The struct `systray.MenuItem`.  `ClickedCh` is `none` for a nil channel and
`some n` for the `n`-th channel made by the package. -/
structure MenuItem where
  ClickedCh : Option Nat
  ID : Int
  Title : String
  Tooltip : String
  Disabled : Bool
  Checked : Bool
deriving DecidableEq, Repr

/-- A Go `map[int32]*MenuItem`. -/
abbrev ItemMap := List (Int × MenuItem)

/-- The assignment `m[k] = v`. -/
def ItemMap.set (m : ItemMap) (k : Int) (v : MenuItem) : ItemMap :=
  (k, v) :: m.filter (fun p => p.1 != k)

/-- The keys of a map. -/
def ItemMap.keys (m : ItemMap) : List Int := m.map Prod.fst

/-- A call into the native layer of the package. -/
inductive Native where
  | addOrUpdateMenuItem (item : MenuItem)
  | hideMenuItem (item : MenuItem)
  | showMenuItem (item : MenuItem)
  | setTitle (title : String)
deriving DecidableEq, Repr

/-- The package-level variables of `systray`: the exported `MenuItems`, the private store
`menuItems`, the counter `currentID`, and the number of channels made so far. -/
structure Systray where
  MenuItems : ItemMap
  menuItems : ItemMap
  currentID : Int
  chans : Nat
deriving DecidableEq, Repr

/-- The package state at program start (systray.go lines 18-51). -/
def Systray.init : Systray :=
  { MenuItems := [], menuItems := [], currentID := -1, chans := 0 }

/-- `item.Update()`: store the item under its ID and hand it to the native layer. -/
def MenuItem.Update (item : MenuItem) (σ : Systray) : Systray × List Native :=
  ({ σ with menuItems := σ.menuItems.set item.ID item }, [Native.addOrUpdateMenuItem item])

/-- `item.Hide()`. -/
def MenuItem.Hide (item : MenuItem) (σ : Systray) : Systray × List Native :=
  (σ, [Native.hideMenuItem item])

/-- `item.Show()`. -/
def MenuItem.Show (item : MenuItem) (σ : Systray) : Systray × List Native :=
  (σ, [Native.showMenuItem item])

/-- `systray.AddMenuItem(title, tooltip)`: the next ID, a fresh channel, then `Update`. -/
def AddMenuItem (title tooltip : String) (σ : Systray) : MenuItem × Systray × List Native :=
  let ID := int32 (σ.currentID + 1)
  let item : MenuItem :=
    { ClickedCh := some σ.chans, ID := ID, Title := title, Tooltip := tooltip,
      Disabled := false, Checked := false }
  let r := item.Update { σ with currentID := ID, chans := σ.chans + 1 }
  (item, r.1, r.2)

/-- `systray.SetTitle(title)`. -/
def SetTitle (title : String) (σ : Systray) : Systray × List Native :=
  (σ, [Native.setTitle title])

/-! ## `main.go` -/

/-- The variables of `getCurrentProcesses` that its loops change: `pid`, the map `m`, the
package state, and the native calls made so far in this call. -/
structure Loop where
  pid : String
  m : ItemMap
  sys : Systray
  calls : List Native
deriving DecidableEq, Repr

/-- The loop of main.go lines 70-72: `Hide` on every item of a map. -/
def hideAll : ItemMap → Systray → Systray × List Native
  | [], σ => (σ, [])
  | p :: rest, σ =>
    let r := p.2.Hide σ
    let r2 := hideAll rest r.1
    (r2.1, r.2 ++ r2.2)

/-- One pass of the loop over the fields of a line (main.go lines 83-100) for the line
at index `idx` whose fields are `listProc`. -/
def fieldStep (idx : Nat) (listProc : List String) (st : Loop) (item : String) :
    Option Loop :=
  let pid := if (Atoi item).isSome then item else st.pid
  if ContainsAny item ":" then
    match (Split item ':')[1]? with
    | none => none
    | some port =>
      match listProc[0]? with
      | none => none
      | some name =>
        let a : MenuItem :=
          { ClickedCh := none, ID := int32 idx, Title := port ++ " -- " ++ name,
            Tooltip := "PID: " ++ pid, Disabled := false, Checked := false }
        let m := st.m.set (int32 idx) a
        let r1 := a.Update st.sys
        let r2 := a.Show r1.1
        some { pid := pid, m := m, sys := r2.1, calls := st.calls ++ r1.2 ++ r2.2 }
  else
    some { st with pid := pid }

/-- The loop `for _, item := range listProc` (main.go lines 82-101). -/
def fieldsLoop (idx : Nat) (listProc : List String) : List String → Loop → Option Loop
  | [], st => some st
  | item :: rest, st =>
    match fieldStep idx listProc st item with
    | none => none
    | some st1 => fieldsLoop idx listProc rest st1

/-- The body of the loop over the lines (main.go lines 77-102). -/
def lineStep (idx : Nat) (allProc : String) (st : Loop) : Option Loop :=
  if Contains allProc "IPv4" then
    let listProc := Split allProc ' '
    fieldsLoop idx listProc listProc st
  else
    some st

/-- The loop `for idx, allProc := range lines` (main.go lines 76-103), from index `idx`. -/
def linesLoop : Nat → List String → Loop → Option Loop
  | _, [], st => some st
  | idx, allProc :: rest, st =>
    match lineStep idx allProc st with
    | none => none
    | some st1 => linesLoop (idx + 1) rest st1

/-- The function `getCurrentProcesses` (main.go lines 46-105) on the pipeline output `s`:
the returned map, the package state after the call, and the native calls it made. -/
def getCurrentProcesses (s : String) (σ : Systray) :
    Option (ItemMap × Systray × List Native) :=
  let lines := Split s '\n'
  let h := hideAll σ.MenuItems σ
  match linesLoop 0 lines { pid := "", m := [], sys := h.1, calls := h.2 } with
  | none => none
  | some st => some (st.m, st.sys, st.calls)

/-- The program state of `main.go`: the package state and the variable `mQuit`. -/
structure App where
  sys : Systray
  mQuit : MenuItem
deriving DecidableEq, Repr

/-- The sequential part of `onReady` (main.go lines 21-22), from the initial package
state: the program state when the two goroutines start, and the native calls made. -/
def onReady : App × List Native :=
  let r1 := SetTitle "Loading..." Systray.init
  let r2 := AddMenuItem "Quit" "Quit the whole app" r1.1
  ({ sys := r2.2.1, mQuit := r2.1 }, r1.2 ++ r2.2.2)

/-- One pass of the poll loop (main.go lines 26-30) on the pipeline output `s`. -/
def pollCycle (s : String) (st : App) : Option (App × List Native) :=
  match getCurrentProcesses s st.sys with
  | none => none
  | some (proc, sys1, calls) =>
    let sys2 : Systray := { sys1 with MenuItems := proc }
    let numProc := toString proc.length
    let r1 := SetTitle ("Utilized Ports: " ++ numProc) sys2
    let r2 := AddMenuItem "Quit" "Quit the whole app" r1.1
    some ({ sys := r2.2.1, mQuit := r2.1 }, calls ++ r1.2 ++ r2.2.2)

/-- What `getCurrentProcesses` leaves for the next cycle once main.go line 27 has stored
its result in `systray.MenuItems`. -/
def storeResult (r : ItemMap × Systray × List Native) : Systray :=
  { r.2.1 with MenuItems := r.1 }

/-! ## Relations used to state what the loops do -/

/-- The loop went from `st` to `r` adding entries only under the keys `P`: the keys of the
map grow by exactly `P`, every new entry carries its key as ID, unique keys stay unique,
and the calls made are `Update` and `Show` calls on items whose ID is in `P`. -/
def Grows (P : Int → Prop) (st r : Loop) : Prop :=
  (∀ k, k ∈ r.m.keys ↔ k ∈ st.m.keys ∨ P k) ∧
  (∀ k e, (k, e) ∈ r.m → (k, e) ∈ st.m ∨ e.ID = k) ∧
  (st.m.keys.Nodup → r.m.keys.Nodup) ∧
  ∃ X, r.calls = st.calls ++ X ∧
    ∀ c ∈ X, ∃ a, (c = Native.addOrUpdateMenuItem a ∨ c = Native.showMenuItem a) ∧ P a.ID

/-- Two runs of a loop, from `st` to `r` and from `st'` to `r'`, end with the same `pid`
and map and made the same calls. -/
def Agree (st st' r r' : Loop) : Prop :=
  r.pid = r'.pid ∧ r.m = r'.m ∧
    ∃ X, r.calls = st.calls ++ X ∧ r'.calls = st'.calls ++ X

/-- The field `f` of the line at index `idx` makes an entry under the key `k`. -/
def FieldMakes (idx : Nat) (f : String) (k : Int) : Prop :=
  ContainsAny f ":" = true ∧ k = int32 idx

/-- The line `l` at index `idx` makes an entry under the key `k`: it contains `"IPv4"`
and one of its fields contains a colon. -/
def LineMakes (idx : Nat) (l : String) (k : Int) : Prop :=
  Contains l "IPv4" = true ∧ (∃ f ∈ Split l ' ', ContainsAny f ":" = true) ∧ k = int32 idx

/-- Some line of `L`, a run of lines that starts at index `i`, makes an entry under `k`. -/
def LinesMake (i : Nat) (L : List String) (k : Int) : Prop :=
  ∃ j l, L[j]? = some l ∧ LineMakes (i + j) l k

/-- The item that `getCurrentProcesses` builds (main.go lines 89-95) for a given ID,
title and tooltip: no channel, not disabled, not checked. -/
def socketItem (ID : Int) (title tooltip : String) : MenuItem :=
  { ClickedCh := none, ID := ID, Title := title, Tooltip := tooltip,
    Disabled := false, Checked := false }

/-- The sample of the end-to-end scenario: one IPv4 line of `lsof -i | grep LISTEN`. -/
def curlSample : String := "curl    123 user 4u IPv4 0x0 0t0 TCP *:8080 (LISTEN)\n"

/-- The entry that the end-to-end scenario expects for `curlSample`. -/
def curlItem : MenuItem := socketItem 0 "8080 -- curl" "PID: 123"

/-- A sample of two IPv4 lines. -/
def twoSample : String :=
  "sshd 77 root 3u IPv4 0x1 0t0 TCP *:22 (LISTEN)\ncurl 123 user 4u IPv4 0x0 0t0 TCP *:8080 (LISTEN)\n"

/-- The second line of `twoSample`. -/
def twoSampleLine1 : String := "curl 123 user 4u IPv4 0x0 0t0 TCP *:8080 (LISTEN)"

/-- The sample that keeps only the first line of `twoSample`. -/
def oneSample : String := "sshd 77 root 3u IPv4 0x1 0t0 TCP *:22 (LISTEN)\n"

/-- A sample with an IPv6 line followed by an IPv4 line. -/
def mixedSample : String :=
  "sshd 77 root 3u IPv6 0x1 0t0 TCP *:22 (LISTEN)\ncurl 123 user 4u IPv4 0x0 0t0 TCP *:8080 (LISTEN)\n"

/-- A sample of one well-formed IPv4 line and one IPv4 line whose port is a service name. -/
def serviceSample : String :=
  "curl 123 user 4u IPv4 0x0 0t0 TCP *:8080 (LISTEN)\nweb 456 user 5u IPv4 0x1 0t0 TCP *:http (LISTEN)\n"

/-- The call is `hideMenuItem`. -/
def Native.isHide : Native → Bool
  | Native.hideMenuItem _ => true
  | _ => false

/-- The call is `hideMenuItem` on an item with ID `k`. -/
def Native.hides (k : Int) : Native → Bool
  | Native.hideMenuItem a => a.ID == k
  | _ => false

/-! ## Facts about `Split`, `ContainsAny` and the index expressions -/

theorem splitChars_ne_nil (sep : Char) (l : List Char) : splitChars sep l ≠ [] := by
  induction l with
  | nil => simp [splitChars]
  | cons c cs ih =>
    unfold splitChars
    split
    · simp
    · split <;> simp

theorem splitChars_of_not_mem (sep : Char) (l : List Char) (h : sep ∉ l) :
    splitChars sep l = [l] := by
  induction l with
  | nil => simp [splitChars]
  | cons c cs ih =>
    have hc : c ≠ sep := fun e => h (by simp [e])
    have hcs : sep ∉ cs := fun e => h (by simp [e])
    simp [splitChars, hc, ih hcs]

theorem splitChars_append_sep (sep : Char) (l r : List Char) (h : sep ∉ l) :
    splitChars sep (l ++ sep :: r) = l :: splitChars sep r := by
  induction l with
  | nil => simp [splitChars]
  | cons c cs ih =>
    have hc : c ≠ sep := fun e => h (by simp [e])
    have hcs : sep ∉ cs := fun e => h (by simp [e])
    simp [splitChars, hc, ih hcs]

theorem splitChars_length_of_mem (sep : Char) (l : List Char) (h : sep ∈ l) :
    2 ≤ (splitChars sep l).length := by
  induction l with
  | nil => simp at h
  | cons c cs ih =>
    unfold splitChars
    by_cases hc : c = sep
    · have := splitChars_ne_nil sep cs
      have hpos : 0 < (splitChars sep cs).length := List.length_pos.mpr this
      simp [hc]
      omega
    · have hmem : sep ∈ cs := by
        rcases List.mem_cons.mp h with e | e
        · exact absurd e.symm hc
        · exact e
      have := ih hmem
      simp only [hc, if_false]
      split
      · rename_i heq
        simp [heq] at this
      · rename_i hd tl heq
        simp [heq] at this
        simp
        omega

theorem Split_ne_nil (s : String) (sep : Char) : Split s sep ≠ [] := by
  simp [Split, splitChars_ne_nil]

theorem containsAny_colon (s : String) : ContainsAny s ":" = true ↔ ':' ∈ s.data := by
  simp [ContainsAny]

theorem Split_colon_length (s : String) (h : ContainsAny s ":" = true) :
    2 ≤ (Split s ':').length := by
  have := splitChars_length_of_mem ':' s.data ((containsAny_colon s).mp h)
  simpa [Split] using this

/-! ## Facts about the map assignment -/

theorem keys_set (m : ItemMap) (k : Int) (v : MenuItem) (k' : Int) :
    k' ∈ (m.set k v).keys ↔ k' = k ∨ k' ∈ m.keys := by
  simp only [ItemMap.set, ItemMap.keys, List.map_cons, List.mem_cons, List.mem_map,
    List.mem_filter]
  constructor
  · rintro (h | ⟨p, ⟨hp, _⟩, rfl⟩)
    · exact Or.inl h
    · exact Or.inr ⟨p, hp, rfl⟩
  · rintro (h | ⟨p, hp, rfl⟩)
    · exact Or.inl h
    · by_cases e : p.1 = k
      · exact Or.inl e
      · exact Or.inr ⟨p, ⟨hp, by simpa using e⟩, rfl⟩

theorem mem_set (m : ItemMap) (k : Int) (v : MenuItem) (k' : Int) (e : MenuItem)
    (h : (k', e) ∈ m.set k v) : (k' = k ∧ e = v) ∨ (k', e) ∈ m := by
  simp only [ItemMap.set, List.mem_cons, List.mem_filter, Prod.mk.injEq] at h
  rcases h with h | h
  · exact Or.inl h
  · exact Or.inr h.1

theorem mem_set_self (m : ItemMap) (k : Int) (v : MenuItem) : (k, v) ∈ m.set k v := by
  simp [ItemMap.set]

theorem nodup_set (m : ItemMap) (k : Int) (v : MenuItem) (h : m.keys.Nodup) :
    (m.set k v).keys.Nodup := by
  simp only [ItemMap.set, ItemMap.keys, List.map_cons, List.nodup_cons, List.mem_map,
    List.mem_filter]
  refine ⟨?_, ?_⟩
  · rintro ⟨p, ⟨_, hp⟩, e⟩
    simp [e] at hp
  · exact (List.filter_sublist m).map Prod.fst |>.nodup h

/-! ## The relations `Grows` and `Agree` compose -/

theorem grows_refl (st : Loop) : Grows (fun _ => False) st st := by
  refine ⟨fun k => by simp, fun k e h => Or.inl h, fun h => h, [], by simp, ?_⟩
  intro c hc
  simp at hc

theorem grows_trans {P Q : Int → Prop} {st r q : Loop} (h1 : Grows P st r)
    (h2 : Grows Q r q) : Grows (fun k => P k ∨ Q k) st q := by
  obtain ⟨k1, e1, n1, X1, c1, x1⟩ := h1
  obtain ⟨k2, e2, n2, X2, c2, x2⟩ := h2
  refine ⟨?_, ?_, fun h => n2 (n1 h), X1 ++ X2, ?_, ?_⟩
  · intro k
    rw [k2, k1, or_assoc]
  · intro k e h
    rcases e2 k e h with h | h
    · exact e1 k e h
    · exact Or.inr h
  · rw [c2, c1, List.append_assoc]
  · intro c hc
    rcases List.mem_append.mp hc with hc | hc
    · obtain ⟨a, ha, hp⟩ := x1 c hc
      exact ⟨a, ha, Or.inl hp⟩
    · obtain ⟨a, ha, hp⟩ := x2 c hc
      exact ⟨a, ha, Or.inr hp⟩

theorem grows_congr {P Q : Int → Prop} {st r : Loop} (h : Grows P st r)
    (hpq : ∀ k, P k ↔ Q k) : Grows Q st r := by
  have : P = Q := funext fun k => propext (hpq k)
  rw [← this]
  exact h

theorem agree_trans {st st' r r' q q' : Loop} (h1 : Agree st st' r r')
    (h2 : Agree r r' q q') : Agree st st' q q' := by
  obtain ⟨_, _, X1, a1, b1⟩ := h1
  obtain ⟨p2, m2, X2, a2, b2⟩ := h2
  refine ⟨p2, m2, X1 ++ X2, ?_, ?_⟩
  · rw [a2, a1, List.append_assoc]
  · rw [b2, b1, List.append_assoc]

/-! ## One field -/

theorem fieldStep_grows (idx : Nat) (listProc : List String) (hlp : listProc ≠ [])
    (st : Loop) (item : String) :
    ∃ r, fieldStep idx listProc st item = some r ∧ Grows (FieldMakes idx item) st r := by
  by_cases hc : ContainsAny item ":" = true
  · obtain ⟨port, hport⟩ : ∃ port, (Split item ':')[1]? = some port := by
      have := Split_colon_length item hc
      exact ⟨(Split item ':')[1], List.getElem?_eq_getElem (by omega)⟩
    obtain ⟨name, rest, hname⟩ := List.exists_cons_of_ne_nil hlp
    subst hname
    simp only [fieldStep, hc, if_true, hport, List.getElem?_cons_zero, MenuItem.Update,
      MenuItem.Show]
    refine ⟨_, rfl, ?_, ?_, ?_, _, by simp only [List.append_assoc]; rfl, ?_⟩
    · intro k
      simp only [keys_set, FieldMakes, hc, true_and]
      exact or_comm
    · intro k e h
      rcases mem_set _ _ _ _ _ h with ⟨hk, he⟩ | h
      · right
        rw [he, hk]
      · exact Or.inl h
    · exact nodup_set _ _ _
    · intro c hcm
      simp only [List.cons_append, List.nil_append, List.mem_cons, List.mem_singleton,
        List.not_mem_nil, or_false] at hcm
      rcases hcm with rfl | rfl
      · exact ⟨_, Or.inl rfl, hc, rfl⟩
      · exact ⟨_, Or.inr rfl, hc, rfl⟩
  · simp only [fieldStep, hc]
    refine ⟨_, rfl, ?_⟩
    exact grows_congr (grows_refl st) (fun k => by simp [FieldMakes, hc])

theorem fieldStep_agree (idx : Nat) (listProc : List String) (st st' r r' : Loop)
    (item : String) (hp : st.pid = st'.pid) (hm : st.m = st'.m)
    (h : fieldStep idx listProc st item = some r)
    (h' : fieldStep idx listProc st' item = some r') : Agree st st' r r' := by
  obtain ⟨pid, m, sys, calls⟩ := st
  obtain ⟨pid', m', sys', calls'⟩ := st'
  simp only at hp hm
  subst hp
  subst hm
  by_cases hc : ContainsAny item ":" = true
  · cases hport : (Split item ':')[1]? with
    | none => simp [fieldStep, hc, hport] at h
    | some port =>
      cases hname : listProc[0]? with
      | none => simp [fieldStep, hc, hport, hname] at h
      | some name =>
        simp only [fieldStep, hc, hport, hname, if_true, Option.some.injEq,
          MenuItem.Update, MenuItem.Show] at h h'
        subst h
        subst h'
        exact ⟨rfl, rfl, _, by simp only [List.append_assoc]; rfl, by simp⟩
  · simp only [fieldStep, hc, Bool.false_eq_true, if_false, Option.some.injEq] at h h'
    subst h
    subst h'
    exact ⟨rfl, rfl, [], by simp, by simp⟩

/-! ## The fields of a line, a line, the lines -/

theorem fieldsLoop_grows (idx : Nat) (listProc : List String) (hlp : listProc ≠ [])
    (fs : List String) (st : Loop) :
    ∃ r, fieldsLoop idx listProc fs st = some r ∧
      Grows (fun k => ∃ f ∈ fs, FieldMakes idx f k) st r := by
  induction fs generalizing st with
  | nil =>
    exact ⟨st, rfl, grows_congr (grows_refl st) (fun k => by simp)⟩
  | cons f fs ih =>
    obtain ⟨r1, h1, g1⟩ := fieldStep_grows idx listProc hlp st f
    obtain ⟨r2, h2, g2⟩ := ih r1
    refine ⟨r2, by simp [fieldsLoop, h1, h2], grows_congr (grows_trans g1 g2) ?_⟩
    intro k
    simp

theorem fieldsLoop_agree (idx : Nat) (listProc fs : List String) (st st' r r' : Loop)
    (hp : st.pid = st'.pid) (hm : st.m = st'.m)
    (h : fieldsLoop idx listProc fs st = some r)
    (h' : fieldsLoop idx listProc fs st' = some r') : Agree st st' r r' := by
  induction fs generalizing st st' with
  | nil =>
    simp only [fieldsLoop, Option.some.injEq] at h h'
    subst h
    subst h'
    exact ⟨hp, hm, [], by simp, by simp⟩
  | cons f fs ih =>
    simp only [fieldsLoop] at h h'
    cases h1 : fieldStep idx listProc st f with
    | none => simp [h1] at h
    | some r1 =>
      cases h1' : fieldStep idx listProc st' f with
      | none => simp [h1'] at h'
      | some r1' =>
        simp only [h1] at h
        simp only [h1'] at h'
        have a1 := fieldStep_agree idx listProc st st' r1 r1' f hp hm h1 h1'
        exact agree_trans a1 (ih r1 r1' a1.1 a1.2.1 h h')

theorem lineStep_grows (idx : Nat) (l : String) (st : Loop) :
    ∃ r, lineStep idx l st = some r ∧ Grows (LineMakes idx l) st r := by
  by_cases hv : Contains l "IPv4" = true
  · obtain ⟨r, h, g⟩ := fieldsLoop_grows idx (Split l ' ') (Split_ne_nil l ' ') (Split l ' ') st
    refine ⟨r, by simp [lineStep, hv, h], grows_congr g ?_⟩
    intro k
    simp only [FieldMakes, LineMakes, hv, true_and]
    constructor
    · rintro ⟨f, hf, hc, hk⟩
      exact ⟨⟨f, hf, hc⟩, hk⟩
    · rintro ⟨⟨f, hf, hc⟩, hk⟩
      exact ⟨f, hf, hc, hk⟩
  · exact ⟨st, by simp [lineStep, hv], grows_congr (grows_refl st) (fun k => by simp [LineMakes, hv])⟩

theorem lineStep_agree (idx : Nat) (l : String) (st st' r r' : Loop)
    (hp : st.pid = st'.pid) (hm : st.m = st'.m)
    (h : lineStep idx l st = some r) (h' : lineStep idx l st' = some r') :
    Agree st st' r r' := by
  by_cases hv : Contains l "IPv4" = true
  · simp only [lineStep, hv, if_true] at h h'
    exact fieldsLoop_agree idx _ _ st st' r r' hp hm h h'
  · simp only [lineStep, hv, Bool.false_eq_true, if_false, Option.some.injEq] at h h'
    subst h
    subst h'
    exact ⟨hp, hm, [], by simp, by simp⟩

theorem linesLoop_grows (i : Nat) (L : List String) (st : Loop) :
    ∃ r, linesLoop i L st = some r ∧ Grows (LinesMake i L) st r := by
  induction L generalizing i st with
  | nil =>
    exact ⟨st, rfl, grows_congr (grows_refl st) (fun k => by simp [LinesMake])⟩
  | cons l L ih =>
    obtain ⟨r1, h1, g1⟩ := lineStep_grows i l st
    obtain ⟨r2, h2, g2⟩ := ih (i + 1) r1
    refine ⟨r2, by simp [linesLoop, h1, h2], grows_congr (grows_trans g1 g2) ?_⟩
    intro k
    simp only [LinesMake]
    constructor
    · rintro (h | ⟨j, l', hj, hm⟩)
      · exact ⟨0, l, by simp, by simpa using h⟩
      · exact ⟨j + 1, l', by simpa using hj, by
          have e : i + (j + 1) = i + 1 + j := by omega
          rw [e]
          exact hm⟩
    · rintro ⟨j, l', hj, hm⟩
      cases j with
      | zero =>
        simp only [List.getElem?_cons_zero, Option.some.injEq] at hj
        subst hj
        exact Or.inl (by simpa using hm)
      | succ j =>
        refine Or.inr ⟨j, l', by simpa using hj, ?_⟩
        have e : i + (j + 1) = i + 1 + j := by omega
        rw [← e]
        exact hm

theorem linesLoop_agree (i : Nat) (L : List String) (st st' r r' : Loop)
    (hp : st.pid = st'.pid) (hm : st.m = st'.m)
    (h : linesLoop i L st = some r) (h' : linesLoop i L st' = some r') :
    Agree st st' r r' := by
  induction L generalizing i st st' with
  | nil =>
    simp only [linesLoop, Option.some.injEq] at h h'
    subst h
    subst h'
    exact ⟨hp, hm, [], by simp, by simp⟩
  | cons l L ih =>
    simp only [linesLoop] at h h'
    cases h1 : lineStep i l st with
    | none => simp [h1] at h
    | some r1 =>
      cases h1' : lineStep i l st' with
      | none => simp [h1'] at h'
      | some r1' =>
        simp only [h1] at h
        simp only [h1'] at h'
        have a1 := lineStep_agree i l st st' r1 r1' hp hm h1 h1'
        exact agree_trans a1 (ih (i + 1) r1 r1' a1.1 a1.2.1 h h')

/-! ## The hide pass -/

theorem hideAll_eq (m : ItemMap) (σ : Systray) :
    hideAll m σ = (σ, m.map (fun p => Native.hideMenuItem p.2)) := by
  induction m generalizing σ with
  | nil => rfl
  | cons p rest ih => simp [hideAll, MenuItem.Hide, ih]

/-! ## `getCurrentProcesses` as a whole -/

theorem int32_of_lt (n : Nat) (h : n < 2 ^ 31) : int32 (n : Int) = n := by
  unfold int32
  omega

theorem getCurrentProcesses_spec (s : String) (σ : Systray) :
    ∃ m σ' X, getCurrentProcesses s σ
        = some (m, σ', σ.MenuItems.map (fun p => Native.hideMenuItem p.2) ++ X) ∧
      (∀ k, k ∈ m.keys ↔ LinesMake 0 (Split s '\n') k) ∧
      (∀ k e, (k, e) ∈ m → e.ID = k) ∧
      m.keys.Nodup ∧
      ∀ c ∈ X, ∃ a, (c = Native.addOrUpdateMenuItem a ∨ c = Native.showMenuItem a) ∧
        LinesMake 0 (Split s '\n') a.ID := by
  obtain ⟨r, hr, hk, he, hn, X, hc, hx⟩ := linesLoop_grows 0 (Split s '\n')
    { pid := "", m := [], sys := σ,
      calls := σ.MenuItems.map (fun p => Native.hideMenuItem p.2) }
  refine ⟨r.m, r.sys, X, ?_, ?_, ?_, ?_, hx⟩
  · simp only [getCurrentProcesses, hideAll_eq, hr, hc]
  · intro k
    rw [hk k]
    simp [ItemMap.keys]
  · intro k e h
    rcases he k e h with h | h
    · simp at h
    · exact h
  · exact hn (by simp [ItemMap.keys])

theorem getCurrentProcesses_agree (s : String) (σ σ' : Systray)
    (r r' : ItemMap × Systray × List Native)
    (h : getCurrentProcesses s σ = some r) (h' : getCurrentProcesses s σ' = some r') :
    r.1 = r'.1 ∧ ∃ X, r.2.2 = σ.MenuItems.map (fun p => Native.hideMenuItem p.2) ++ X ∧
      r'.2.2 = σ'.MenuItems.map (fun p => Native.hideMenuItem p.2) ++ X := by
  simp only [getCurrentProcesses, hideAll_eq] at h h'
  split at h
  · simp at h
  · rename_i st hst
    split at h'
    · simp at h'
    · rename_i st' hst'
      simp only [Option.some.injEq] at h h'
      subst h
      subst h'
      obtain ⟨_, hm, X, hx, hx'⟩ := linesLoop_agree 0 (Split s '\n')
        { pid := "", m := [], sys := σ,
          calls := σ.MenuItems.map (fun p => Native.hideMenuItem p.2) }
        { pid := "", m := [], sys := σ',
          calls := σ'.MenuItems.map (fun p => Native.hideMenuItem p.2) }
        st st' rfl rfl hst hst'
      exact ⟨hm, X, hx, hx'⟩

theorem linesMake_zero (L : List String) (k : Int) :
    LinesMake 0 L k ↔ ∃ idx l, L[idx]? = some l ∧ Contains l "IPv4" = true ∧
      (∃ f ∈ Split l ' ', ContainsAny f ":" = true) ∧ k = int32 (idx : Nat) := by
  simp [LinesMake, LineMakes]

theorem filter_hides_map (m : ItemMap) (hn : m.keys.Nodup)
    (hid : ∀ k e, (k, e) ∈ m → e.ID = k) (k : Int) (e : MenuItem) (h : (k, e) ∈ m) :
    (m.map (fun p => Native.hideMenuItem p.2)).filter (Native.hides k)
      = [Native.hideMenuItem e] := by
  induction m with
  | nil => simp at h
  | cons p rest ih =>
    simp only [ItemMap.keys, List.map_cons, List.nodup_cons, List.mem_map] at hn
    have hid' : ∀ k e, (k, e) ∈ rest → e.ID = k := fun k e h' =>
      hid k e (List.mem_cons_of_mem _ h')
    rcases List.mem_cons.mp h with h | h
    · subst h
      have hnone : (rest.map (fun p => Native.hideMenuItem p.2)).filter (Native.hides k)
          = [] := by
        rw [List.filter_eq_nil_iff]
        intro c hc
        obtain ⟨q, hq, rfl⟩ := List.mem_map.mp hc
        simp only [Native.hides, beq_iff_eq]
        intro hqk
        apply hn.1
        refine ⟨q, hq, ?_⟩
        rw [← hid' q.1 q.2 hq, hqk]
      have hself : e.ID = k := hid k e (List.mem_cons_self _ _)
      simp [List.filter_cons, Native.hides, hself, hnone]
    · have hp : p.2.ID ≠ k := by
        intro hpk
        apply hn.1
        refine ⟨(k, e), h, ?_⟩
        rw [← hpk, hid p.1 p.2 (List.mem_cons_self _ _)]
      have := ih hn.2 hid' h
      simp [List.filter_cons, Native.hides, hp, this]

/-! ## The claims -/

/-- C10: parsing is total. For every text, the first field of a line exists
(`listProc[0]`), a field that contains a colon splits into at least two parts
(`strings.Split(item, ":")[1]`), and `getCurrentProcesses` returns a map from every
text and every package state. -/
theorem getCurrentProcesses_total :
    (∀ allProc : String, ∃ name, (Split allProc ' ')[0]? = some name) ∧
    (∀ item : String, ContainsAny item ":" = true →
      ∃ port, (Split item ':')[1]? = some port) ∧
    (∀ (s : String) (σ : Systray), ∃ r, getCurrentProcesses s σ = some r) := by
  refine ⟨?_, ?_, ?_⟩
  · intro allProc
    obtain ⟨name, rest, h⟩ := List.exists_cons_of_ne_nil (Split_ne_nil allProc ' ')
    exact ⟨name, by simp [h]⟩
  · intro item hc
    have := Split_colon_length item hc
    exact ⟨(Split item ':')[1], List.getElem?_eq_getElem (by omega)⟩
  · intro s σ
    obtain ⟨m, σ', X, h, _⟩ := getCurrentProcesses_spec s σ
    exact ⟨_, h⟩

/-- C2: family filter. Every key of the map that `getCurrentProcesses` returns is the
index (as int32) of a line of the sample that contains `"IPv4"`, and every `Update` or
`Show` call it makes is on an item whose ID is the index of such a line: a line without
the marker produces no entry and no call. -/
theorem family_filter (s : String) (σ : Systray) (r : ItemMap × Systray × List Native)
    (h : getCurrentProcesses s σ = some r) :
    (∀ k ∈ r.1.keys, ∃ idx l, (Split s '\n')[idx]? = some l ∧
        Contains l "IPv4" = true ∧ k = int32 (idx : Nat)) ∧
    (∀ a, Native.addOrUpdateMenuItem a ∈ r.2.2 ∨ Native.showMenuItem a ∈ r.2.2 →
      ∃ idx l, (Split s '\n')[idx]? = some l ∧
        Contains l "IPv4" = true ∧ a.ID = int32 (idx : Nat)) := by
  obtain ⟨m, σ', X, h', hk, _, _, hx⟩ := getCurrentProcesses_spec s σ
  rw [h'] at h
  simp only [Option.some.injEq] at h
  subst h
  refine ⟨?_, ?_⟩
  · intro k hkm
    obtain ⟨idx, l, hl, hv, _, e⟩ := (linesMake_zero _ k).mp ((hk k).mp hkm)
    exact ⟨idx, l, hl, hv, e⟩
  · intro a ha
    have hax : Native.addOrUpdateMenuItem a ∈ X ∨ Native.showMenuItem a ∈ X := by
      rcases ha with ha | ha
      · left
        simpa using ha
      · right
        simpa using ha
    have hmk : LinesMake 0 (Split s '\n') a.ID := by
      rcases hax with ha | ha
      · obtain ⟨b, hb, hm⟩ := hx _ ha
        rcases hb with hb | hb
        · cases hb
          exact hm
        · cases hb
      · obtain ⟨b, hb, hm⟩ := hx _ ha
        rcases hb with hb | hb
        · cases hb
        · cases hb
          exact hm
    obtain ⟨idx, l, hl, hv, _, e⟩ := (linesMake_zero _ a.ID).mp hmk
    exact ⟨idx, l, hl, hv, e⟩

/-- C3: hide on disappearance. Let cycle N return the map `r0.1`, stored in
`systray.MenuItems`, and let cycle N+1 run on any sample. An entry of the stored map
whose key is not a key of the map of cycle N+1 gets exactly one `Hide` call during
cycle N+1, and no `Update` or `Show` call of that cycle is on an item with its ID. -/
theorem hide_on_disappearance (s0 s1 : String) (σ0 σ1 : Systray)
    (r0 r1 : ItemMap × Systray × List Native)
    (h0 : getCurrentProcesses s0 σ0 = some r0) (hstore : σ1.MenuItems = r0.1)
    (h1 : getCurrentProcesses s1 σ1 = some r1)
    (k : Int) (e : MenuItem) (hmem : (k, e) ∈ r0.1) (hgone : k ∉ r1.1.keys) :
    r1.2.2.filter (Native.hides k) = [Native.hideMenuItem e] ∧
    (∀ a, Native.addOrUpdateMenuItem a ∈ r1.2.2 ∨ Native.showMenuItem a ∈ r1.2.2 →
      a.ID ≠ k) := by
  obtain ⟨m0, σ0', X0, h0', _, hid0, hn0, _⟩ := getCurrentProcesses_spec s0 σ0
  rw [h0'] at h0
  simp only [Option.some.injEq] at h0
  subst h0
  obtain ⟨m1, σ1', X1, h1', hk1, _, _, hx1⟩ := getCurrentProcesses_spec s1 σ1
  rw [h1'] at h1
  simp only [Option.some.injEq] at h1
  subst h1
  simp only at hstore hmem hgone
  have hXk : ∀ c ∈ X1, ∃ a, (c = Native.addOrUpdateMenuItem a ∨ c = Native.showMenuItem a)
      ∧ a.ID ≠ k := by
    intro c hc
    obtain ⟨a, ha, hm⟩ := hx1 c hc
    refine ⟨a, ha, ?_⟩
    intro hak
    exact hgone ((hk1 k).mpr (hak ▸ hm))
  refine ⟨?_, ?_⟩
  · have hX : X1.filter (Native.hides k) = [] := by
      rw [List.filter_eq_nil_iff]
      intro c hc
      obtain ⟨a, ha, _⟩ := hXk c hc
      rcases ha with rfl | rfl <;> simp [Native.hides]
    simp only [List.filter_append, hX, List.append_nil, hstore]
    exact filter_hides_map m0 hn0 hid0 k e hmem
  · intro a ha
    have hax : Native.addOrUpdateMenuItem a ∈ X1 ∨ Native.showMenuItem a ∈ X1 := by
      rcases ha with ha | ha
      · left
        simpa using ha
      · right
        simpa using ha
    rcases hax with ha | ha
    · obtain ⟨b, hb, hne⟩ := hXk _ ha
      rcases hb with hb | hb
      · cases hb
        exact hne
      · cases hb
    · obtain ⟨b, hb, hne⟩ := hXk _ ha
      rcases hb with hb | hb
      · cases hb
      · cases hb
        exact hne

theorem filter_isHide_map (m : ItemMap) :
    (m.map (fun p => Native.hideMenuItem p.2)).filter Native.isHide
      = m.map (fun p => Native.hideMenuItem p.2) := by
  rw [List.filter_eq_self]
  intro c hc
  obtain ⟨q, _, rfl⟩ := List.mem_map.mp hc
  rfl

theorem filter_not_isHide_map (m : ItemMap) :
    (m.map (fun p => Native.hideMenuItem p.2)).filter (fun c => !c.isHide) = [] := by
  rw [List.filter_eq_nil_iff]
  intro c hc
  obtain ⟨q, _, rfl⟩ := List.mem_map.mp hc
  simp [Native.isHide]

theorem isHide_false_of_update_or_show (X : List Native) (P : Int → Prop)
    (hx : ∀ c ∈ X, ∃ a, (c = Native.addOrUpdateMenuItem a ∨ c = Native.showMenuItem a)
      ∧ P a.ID) : ∀ c ∈ X, c.isHide = false := by
  intro c hc
  obtain ⟨a, ha, _⟩ := hx c hc
  rcases ha with rfl | rfl <;> rfl

/-- C4, as the code has it: running the poll cycle twice on the same sample returns the
same map the second time, and the second run is not silent. It hides every entry of the
first run's map once and then repeats the `Update` and `Show` calls of the first run; it
makes no call at all only when the sample yields no entry. -/
theorem second_run_effects (s : String) (σ σ1 : Systray)
    (r1 r2 : ItemMap × Systray × List Native)
    (h1 : getCurrentProcesses s σ = some r1) (hstore : σ1.MenuItems = r1.1)
    (h2 : getCurrentProcesses s σ1 = some r2) :
    r2.1 = r1.1 ∧
    (r2.2.2.filter Native.isHide).Perm (r1.1.map (fun p => Native.hideMenuItem p.2)) ∧
    r2.2.2.filter (fun c => !c.isHide) = r1.2.2.filter (fun c => !c.isHide) ∧
    (r2.2.2 = [] ↔ r1.1 = []) := by
  obtain ⟨hm, X, hx1, hx2⟩ := getCurrentProcesses_agree s σ σ1 r1 r2 h1 h2
  obtain ⟨m, σ', X', h', hk, _, _, hx⟩ := getCurrentProcesses_spec s σ
  rw [h'] at h1
  simp only [Option.some.injEq] at h1
  subst h1
  simp only at hm hx1 hx2 hstore ⊢
  have hXX : X' = X := List.append_cancel_left hx1
  subst hXX
  have hnot := isHide_false_of_update_or_show X' _ hx
  have hXh : X'.filter Native.isHide = [] := by
    rw [List.filter_eq_nil_iff]
    intro c hc
    simp [hnot c hc]
  have hXn : X'.filter (fun c => !c.isHide) = X' := by
    rw [List.filter_eq_self]
    intro c hc
    simp [hnot c hc]
  refine ⟨hm.symm, ?_, ?_, ?_⟩
  · rw [hx2, hstore, List.filter_append, hXh, List.append_nil, filter_isHide_map]
  · rw [hx2, List.filter_append, List.filter_append, filter_not_isHide_map,
      filter_not_isHide_map]
  · rw [hx2, hstore]
    constructor
    · intro he
      have := (List.append_eq_nil.mp he).1
      simpa using this
    · intro he
      subst he
      have : X' = [] := by
        apply List.eq_nil_iff_forall_not_mem.mpr
        intro c hc
        obtain ⟨a, _, hmk⟩ := hx c hc
        have := (hk a.ID).mpr hmk
        simp [ItemMap.keys] at this
      simp [this]

/-- C5, as the code has it: the ID of the entry made for a socket line is the position
of the line in the sample. For every line at index `idx` that contains `"IPv4"` and has
a field with a colon, the returned map has an entry under the key `int32(idx)` whose ID
is `int32(idx)`, which is `idx` itself below 2^31: the same line at another position
gets another ID. -/
theorem entry_id_is_line_index (s : String) (σ : Systray)
    (r : ItemMap × Systray × List Native) (h : getCurrentProcesses s σ = some r)
    (idx : Nat) (l : String) (hl : (Split s '\n')[idx]? = some l)
    (hv : Contains l "IPv4" = true) (hf : ∃ f ∈ Split l ' ', ContainsAny f ":" = true) :
    (∃ e, (int32 (idx : Nat), e) ∈ r.1 ∧ e.ID = int32 (idx : Nat)) ∧
    (idx < 2 ^ 31 → int32 (idx : Nat) = (idx : Nat)) := by
  obtain ⟨m, σ', X, h', hk, hid, _, _⟩ := getCurrentProcesses_spec s σ
  rw [h'] at h
  simp only [Option.some.injEq] at h
  subst h
  refine ⟨?_, int32_of_lt idx⟩
  have hkey : int32 (idx : Nat) ∈ ItemMap.keys m :=
    (hk _).mpr ((linesMake_zero _ _).mpr ⟨idx, l, hl, hv, hf, rfl⟩)
  obtain ⟨p, hp, hpk⟩ := List.mem_map.mp hkey
  refine ⟨p.2, ?_, ?_⟩
  · rw [← hpk]
    exact hp
  · rw [← hpk]
    exact hid p.1 p.2 hp

/-- C6, as the code has it: the text after the colon is never checked. The keys of the
returned map are exactly the indices (as int32) of the lines that contain `"IPv4"` and
have a field with a colon, whether or not the port text is a number: a line with a
non-numeric port makes an entry like any other. -/
theorem entry_for_every_address_line (s : String) (σ : Systray)
    (r : ItemMap × Systray × List Native) (h : getCurrentProcesses s σ = some r)
    (k : Int) :
    k ∈ r.1.keys ↔ ∃ idx l, (Split s '\n')[idx]? = some l ∧ Contains l "IPv4" = true ∧
      (∃ f ∈ Split l ' ', ContainsAny f ":" = true) ∧ k = int32 (idx : Nat) := by
  obtain ⟨m, σ', X, h', hk, _, _, _⟩ := getCurrentProcesses_spec s σ
  rw [h'] at h
  simp only [Option.some.injEq] at h
  subst h
  rw [← linesMake_zero]
  exact hk k

/-! ## A single line, field by field -/

theorem fieldStep_plain (idx : Nat) (listProc : List String) (st : Loop) (f : String)
    (hi : Atoi f = none) (hc : ContainsAny f ":" = false) :
    fieldStep idx listProc st f = some st := by
  simp [fieldStep, hi, hc]

theorem fieldsLoop_plain (idx : Nat) (listProc fs : List String) (st : Loop)
    (hi : ∀ f ∈ fs, Atoi f = none) (hc : ∀ f ∈ fs, ContainsAny f ":" = false) :
    fieldsLoop idx listProc fs st = some st := by
  induction fs with
  | nil => rfl
  | cons f fs ih =>
    simp only [fieldsLoop, fieldStep_plain idx listProc st f (hi f (List.mem_cons_self _ _))
      (hc f (List.mem_cons_self _ _))]
    exact ih (fun g hg => hi g (List.mem_cons_of_mem _ hg))
      (fun g hg => hc g (List.mem_cons_of_mem _ hg))

theorem fieldsLoop_append (idx : Nat) (listProc a b : List String) (st : Loop) :
    fieldsLoop idx listProc (a ++ b) st =
      match fieldsLoop idx listProc a st with
      | none => none
      | some r => fieldsLoop idx listProc b r := by
  induction a generalizing st with
  | nil => rfl
  | cons f a ih =>
    simp only [List.cons_append, fieldsLoop]
    cases fieldStep idx listProc st f with
    | none => rfl
    | some r => exact ih r

theorem fieldStep_pid (idx : Nat) (listProc : List String) (st : Loop) (f : String)
    (hi : (Atoi f).isSome = true) (hc : ContainsAny f ":" = false) :
    fieldStep idx listProc st f = some { st with pid := f } := by
  simp [fieldStep, hi, hc]

theorem fieldStep_addr (idx : Nat) (name : String) (rest : List String) (st : Loop)
    (f host port : String) (hi : Atoi f = none) (hs : Split f ':' = [host, port])
    (a : MenuItem)
    (ha : a = socketItem (int32 (idx : Nat)) (port ++ " -- " ++ name) ("PID: " ++ st.pid)) :
    fieldStep idx (name :: rest) st f =
      some { pid := st.pid,
             m := st.m.set (int32 (idx : Nat)) a,
             sys := { st.sys with menuItems := st.sys.menuItems.set (int32 (idx : Nat)) a },
             calls := st.calls ++ [Native.addOrUpdateMenuItem a, Native.showMenuItem a] } := by
  have hc : ContainsAny f ":" = true := by
    by_contra hn
    have hnm : ':' ∉ f.data := fun hm => hn ((containsAny_colon f).mpr hm)
    have := splitChars_of_not_mem ':' f.data hnm
    simp [Split, this] at hs
  subst ha
  simp [fieldStep, hi, hc, hs, MenuItem.Update, MenuItem.Show, socketItem]

theorem Split_single_line (line : String) (h : '\n' ∉ line.data) :
    Split line '\n' = [line] := by
  simp [Split, splitChars_of_not_mem '\n' line.data h]

theorem Split_line_newline (line : String) (h : '\n' ∉ line.data) :
    Split (line ++ "\n") '\n' = [line, ""] := by
  have e : (line ++ "\n").data = line.data ++ '\n' :: [] := by
    simp [String.data_append]
  simp [Split, e, splitChars_append_sep '\n' line.data [] h, splitChars]

theorem linesLoop_single (s line : String) (h : '\n' ∉ line.data)
    (hs : s = line ∨ s = line ++ "\n") (st : Loop) :
    linesLoop 0 (Split s '\n') st = lineStep 0 line st := by
  have hempty : Contains "" "IPv4" = false := by decide
  rcases hs with rfl | rfl
  · rw [Split_single_line _ h]
    simp only [linesLoop]
    cases lineStep 0 s st <;> rfl
  · rw [Split_line_newline _ h]
    simp only [linesLoop, lineStep, hempty]
    cases (if Contains line "IPv4" = true then
      fieldsLoop 0 (Split line ' ') (Split line ' ') st else some st) <;> simp

theorem fieldsLoop_pid_addr (idx : Nat) (name : String) (rest A B C : List String)
    (pid addr host port : String) (st : Loop) (a : MenuItem)
    (ha : a = socketItem (int32 (idx : Nat)) (port ++ " -- " ++ name) ("PID: " ++ pid))
    (hpid : (Atoi pid).isSome = true)
    (hint : ∀ f ∈ A ++ B ++ addr :: C, Atoi f = none)
    (hcolon : ∀ f ∈ A ++ pid :: B ++ C, ContainsAny f ":" = false)
    (haddr : Split addr ':' = [host, port]) :
    fieldsLoop idx (name :: rest) (A ++ pid :: B ++ addr :: C) st =
      some { pid := pid,
             m := st.m.set (int32 (idx : Nat)) a,
             sys := { st.sys with menuItems := st.sys.menuItems.set (int32 (idx : Nat)) a },
             calls := st.calls ++ [Native.addOrUpdateMenuItem a, Native.showMenuItem a] } := by
  have e : A ++ pid :: B ++ addr :: C = A ++ (pid :: (B ++ (addr :: C))) := by simp
  have hA := fieldsLoop_plain idx (name :: rest) A st
    (fun f hf => hint f (by simp [hf])) (fun f hf => hcolon f (by simp [hf]))
  have hP := fieldStep_pid idx (name :: rest) st pid hpid (hcolon pid (by simp))
  have hB := fieldsLoop_plain idx (name :: rest) B { st with pid := pid }
    (fun f hf => hint f (by simp [hf])) (fun f hf => hcolon f (by simp [hf]))
  have hD := fieldStep_addr idx name rest { st with pid := pid } addr host port
    (hint addr (by simp)) haddr a ha
  have hC : ∀ st1, fieldsLoop idx (name :: rest) C st1 = some st1 := fun st1 =>
    fieldsLoop_plain idx (name :: rest) C st1
      (fun f hf => hint f (by simp [hf])) (fun f hf => hcolon f (by simp [hf]))
  rw [e, fieldsLoop_append, hA]
  simp only [fieldsLoop, hP]
  rw [fieldsLoop_append, hB]
  simp only [fieldsLoop, hD, hC]

/-- C1, as the code has it: a single-line sample whose line contains `"IPv4"`, whose
only field that parses as an integer is `pid`, whose only field with a colon is
`host:port` with exactly one colon, and in which the `pid` field comes before the
`host:port` field, run against an empty previous entry set, returns exactly one entry,
under key 0, with Title `port ++ " -- " ++` the first field and Tooltip `"PID: " ++ pid`;
the calls made are one `Update` and one `Show` of that entry. -/
theorem single_line_entry (line s : String) (σ : Systray) (A B C : List String)
    (pid addr host port : String) (a : MenuItem)
    (hσ : σ.MenuItems = [])
    (hline : '\n' ∉ line.data) (hs : s = line ∨ s = line ++ "\n")
    (hv4 : Contains line "IPv4" = true)
    (hfields : Split line ' ' = A ++ pid :: B ++ addr :: C)
    (hpid : (Atoi pid).isSome = true)
    (hint : ∀ f ∈ A ++ B ++ addr :: C, Atoi f = none)
    (hcolon : ∀ f ∈ A ++ pid :: B ++ C, ContainsAny f ":" = false)
    (haddr : Split addr ':' = [host, port])
    (ha : a = socketItem 0 (port ++ " -- " ++ (Split line ' ').headD "") ("PID: " ++ pid)) :
    getCurrentProcesses s σ =
      some ([(0, a)], { σ with menuItems := σ.menuItems.set 0 a },
        [Native.addOrUpdateMenuItem a, Native.showMenuItem a]) := by
  obtain ⟨name, rest, hnr⟩ : ∃ name rest, Split line ' ' = name :: rest :=
    List.exists_cons_of_ne_nil (Split_ne_nil line ' ')
  have h0 : int32 ((0 : Nat) : Int) = 0 := by decide
  have hloop := fieldsLoop_pid_addr 0 name rest A B C pid addr host port
    { pid := "", m := [], sys := σ, calls := [] } a
    (by rw [h0, ha, hnr]; rfl) hpid hint hcolon haddr
  simp only [getCurrentProcesses, hideAll_eq, hσ, List.map_nil,
    linesLoop_single s line hline hs, lineStep, hv4, if_true]
  rw [hfields] at hnr
  rw [hfields]
  nth_rewrite 1 [hnr]
  rw [hloop]
  have h0' : int32 0 = 0 := by decide
  simp [h0', hσ, ItemMap.set]

/-! ## The claims at concrete samples -/

/-- C1, a sample the claim covers and the code treats otherwise: in
`"curl IPv4 *:8080 123"` the only integer field is `123` and the only field with a colon
is `*:8080`, but the integer field comes after the address, and the Tooltip is `"PID: "`,
not `"PID: 123"`. -/
theorem pid_after_address_counterexample :
    Contains "curl IPv4 *:8080 123" "IPv4" = true ∧
    (Split "curl IPv4 *:8080 123" ' ').map (fun f => (f, (Atoi f).isSome, ContainsAny f ":"))
      = [("curl", false, false), ("IPv4", false, false), ("*:8080", false, true),
         ("123", true, false)] ∧
    Split "*:8080" ':' = ["*", "8080"] ∧
    (getCurrentProcesses "curl IPv4 *:8080 123\n" Systray.init).map
        (fun r => r.1.map (fun p => (p.2.Title, p.2.Tooltip)))
      = some [("8080 -- curl", "PID: ")] ∧
    (getCurrentProcesses "curl IPv4 *:8080 123\n" Systray.init).map
        (fun r => r.1.map (fun p => (p.2.Title, p.2.Tooltip)))
      ≠ some [("8080 -- curl", "PID: 123")] := by
  decide

/-- C1 at the sample of the end-to-end scenario: one entry, Title `"8080 -- curl"`,
Tooltip `"PID: 123"`, one `Update` and one `Show`. -/
theorem single_line_entry_witness :
    getCurrentProcesses curlSample Systray.init =
      some ([(0, curlItem)], { Systray.init with menuItems := [(0, curlItem)] },
        [Native.addOrUpdateMenuItem curlItem, Native.showMenuItem curlItem]) :=
  single_line_entry "curl    123 user 4u IPv4 0x0 0t0 TCP *:8080 (LISTEN)" curlSample
    Systray.init ["curl", "", "", ""] ["user", "4u", "IPv4", "0x0", "0t0", "TCP"] ["(LISTEN)"]
    "123" "*:8080" "*" "8080" curlItem rfl (by decide) (Or.inr rfl) (by decide) (by decide)
    (by decide) (by decide) (by decide) (by decide) (by decide)

/-- C10 at the texts the claim names: the empty text, a blank line, a line that begins
with a space, and the fields `":"` and `"a:"` all give a result. -/
theorem getCurrentProcesses_total_examples :
    (getCurrentProcesses "" Systray.init).isSome = true ∧
    (getCurrentProcesses "\n\n" Systray.init).isSome = true ∧
    (getCurrentProcesses " IPv4 : a:\n" Systray.init).map
        (fun r => r.1.map (fun p => (p.1, p.2.Title)))
      = some [(0, " -- ")] := by
  decide

/-- C2 at `mixedSample`: the IPv6 line at index 0 makes no entry; the only key is 1. -/
theorem family_filter_witness :
    ∃ r, getCurrentProcesses mixedSample Systray.init = some r ∧ r.1.keys = [1] ∧
      (∀ k ∈ r.1.keys, ∃ idx l, (Split mixedSample '\n')[idx]? = some l ∧
        Contains l "IPv4" = true ∧ k = int32 (idx : Nat)) ∧
      (∀ a, Native.addOrUpdateMenuItem a ∈ r.2.2 ∨ Native.showMenuItem a ∈ r.2.2 →
        ∃ idx l, (Split mixedSample '\n')[idx]? = some l ∧
          Contains l "IPv4" = true ∧ a.ID = int32 (idx : Nat)) :=
  ⟨_, rfl, by decide, family_filter mixedSample Systray.init _ rfl⟩

/-- C3 at `twoSample` followed by `oneSample`: the entry under key 1 is gone in the
second cycle, is hidden once, and is neither updated nor shown. -/
theorem hide_on_disappearance_witness :
    ∃ r0 r1, getCurrentProcesses twoSample Systray.init = some r0 ∧
      getCurrentProcesses oneSample (storeResult r0) = some r1 ∧
      (1, socketItem 1 "8080 -- curl" "PID: 123") ∈ r0.1 ∧ (1 : Int) ∉ r1.1.keys ∧
      r1.2.2.filter (Native.hides 1)
        = [Native.hideMenuItem (socketItem 1 "8080 -- curl" "PID: 123")] ∧
      (∀ a, Native.addOrUpdateMenuItem a ∈ r1.2.2 ∨ Native.showMenuItem a ∈ r1.2.2 →
        a.ID ≠ 1) :=
  ⟨_, _, rfl, rfl, by decide, by decide,
    hide_on_disappearance twoSample oneSample Systray.init _ _ _ rfl rfl rfl 1
      (socketItem 1 "8080 -- curl" "PID: 123") (by decide) (by decide)⟩

/-- C4 fails at `curlSample`: the second run on the same sample makes three calls, a
`Hide`, an `Update` and a `Show` of the one entry. -/
theorem second_run_not_silent :
    ((getCurrentProcesses curlSample Systray.init).bind
        (fun r1 => getCurrentProcesses curlSample (storeResult r1))).map (fun r2 => r2.2.2)
      = some [Native.hideMenuItem curlItem, Native.addOrUpdateMenuItem curlItem,
              Native.showMenuItem curlItem] := by
  decide

/-- C4, as the code has it, at `curlSample`. -/
theorem second_run_effects_witness :
    ∃ r1 r2, getCurrentProcesses curlSample Systray.init = some r1 ∧
      getCurrentProcesses curlSample (storeResult r1) = some r2 ∧
      r2.1 = r1.1 ∧
      (r2.2.2.filter Native.isHide).Perm (r1.1.map (fun p => Native.hideMenuItem p.2)) ∧
      r2.2.2.filter (fun c => !c.isHide) = r1.2.2.filter (fun c => !c.isHide) ∧
      (r2.2.2 = [] ↔ r1.1 = []) :=
  ⟨_, _, rfl, rfl,
    second_run_effects curlSample Systray.init _ _ _ rfl rfl rfl⟩

/-- C5 fails at the line of `twoSampleLine1`: alone in a sample it gets ID 0, as the
second line of `twoSample` it gets ID 1. -/
theorem same_line_two_positions :
    (Split (twoSampleLine1 ++ "\n") '\n')[0]? = some twoSampleLine1 ∧
    (Split twoSample '\n')[1]? = some twoSampleLine1 ∧
    (getCurrentProcesses (twoSampleLine1 ++ "\n") Systray.init).map
        (fun r => r.1.map (fun p => (p.2.ID, p.2.Title, p.2.Tooltip)))
      = some [(0, "8080 -- curl", "PID: 123")] ∧
    (getCurrentProcesses twoSample Systray.init).map
        (fun r => r.1.map (fun p => (p.2.ID, p.2.Title, p.2.Tooltip)))
      = some [(1, "8080 -- curl", "PID: 123"), (0, "22 -- sshd", "PID: 77")] := by
  decide

/-- C5, as the code has it, at the second line of `twoSample`: its entry has ID 1. -/
theorem entry_id_is_line_index_witness :
    ∃ r, getCurrentProcesses twoSample Systray.init = some r ∧
      (∃ e, (int32 ((1 : Nat) : Int), e) ∈ r.1 ∧ e.ID = int32 ((1 : Nat) : Int)) ∧
      (1 < 2 ^ 31 → int32 ((1 : Nat) : Int) = ((1 : Nat) : Int)) :=
  ⟨_, rfl, entry_id_is_line_index twoSample Systray.init _ rfl 1 twoSampleLine1
    (by decide) (by decide) (by decide)⟩

/-- C6 fails at `serviceSample`: the line with the port `http`, which is not a number,
is not skipped, and the sample yields two entries. -/
theorem service_name_port_makes_entry :
    Atoi "http" = none ∧
    (getCurrentProcesses serviceSample Systray.init).map
        (fun r => r.1.map (fun p => (p.1, p.2.Title, p.2.Tooltip)))
      = some [(1, "http -- web", "PID: 456"), (0, "8080 -- curl", "PID: 123")] := by
  decide

/-- C6, as the code has it, at `serviceSample`: key 1, the line with the port `http`. -/
theorem entry_for_every_address_line_witness :
    ∃ r, getCurrentProcesses serviceSample Systray.init = some r ∧
      ((1 : Int) ∈ r.1.keys ↔ ∃ idx l, (Split serviceSample '\n')[idx]? = some l ∧
        Contains l "IPv4" = true ∧ (∃ f ∈ Split l ' ', ContainsAny f ":" = true) ∧
        (1 : Int) = int32 (idx : Nat)) :=
  ⟨_, rfl, entry_for_every_address_line serviceSample Systray.init _ rfl 1⟩

/-- C7 fails on a line with two integer fields before the address: the first field
that parses as an integer is `1234`, the Tooltip shows `23456`, the last one. -/
theorem pid_is_last_integer_field :
    (Split "sshd 1234 root 3u IPv4 23456 0t0 TCP *:22 (LISTEN)" ' ').filter
        (fun f => (Atoi f).isSome) = ["1234", "23456"] ∧
    (getCurrentProcesses "sshd 1234 root 3u IPv4 23456 0t0 TCP *:22 (LISTEN)\n"
        Systray.init).map (fun r => r.1.map (fun p => (p.2.Title, p.2.Tooltip)))
      = some [("22 -- sshd", "PID: 23456")] := by
  decide

/-- C8 fails on a second line without an integer field: its Tooltip shows `1234`, the
PID of the first line. -/
theorem pid_carried_to_next_line :
    (Split "nginx - root 6u IPv4 0x2 0t0 TCP *:80 (LISTEN)" ' ').filter
        (fun f => (Atoi f).isSome) = [] ∧
    (getCurrentProcesses
        "sshd 1234 root 3u IPv4 0x1 0t0 TCP *:22 (LISTEN)\nnginx - root 6u IPv4 0x2 0t0 TCP *:80 (LISTEN)\n"
        Systray.init).map (fun r => r.1.map (fun p => (p.1, p.2.Title, p.2.Tooltip)))
      = some [(1, "80 -- nginx", "PID: 1234"), (0, "22 -- sshd", "PID: 1234")] := by
  decide

/-- C9 fails after the first poll cycle on `curlSample`: the `Quit` item that `onReady`
added has ID 0 and a channel, the socket entry of line 0 has ID 0 as well, and the
`Update` of the socket entry has replaced the `Quit` item in `menuItems` by an item
with a nil channel. -/
theorem quit_item_replaced :
    onReady.1.mQuit.ID = 0 ∧
    onReady.1.mQuit.ClickedCh = some 0 ∧
    List.lookup 0 onReady.1.sys.menuItems = some onReady.1.mQuit ∧
    (pollCycle curlSample onReady.1).map (fun r => r.1.sys.MenuItems) = some [(0, curlItem)] ∧
    curlItem.ID = onReady.1.mQuit.ID ∧
    (pollCycle curlSample onReady.1).map (fun r => List.lookup 0 r.1.sys.menuItems)
      = some (some curlItem) ∧
    curlItem.ClickedCh = none := by
  decide

end WhichPort
